import Mathlib

/-!
Verification of the TMY (Typical Meteorological Year) pipeline in
`checking.py`: `process_solar_data` (stateful date normalization with
leap-day handling), `calculate_tmm` (Finkelstein–Schafer month selection)
and `calculate_tmy` (assembly of the synthetic year).

Modelling conventions: float values are embedded as exact rationals (`ℚ`);
the pandas/numpy behaviours the code relies on are embedded explicitly —
strict `%d-%b %Y` parsing of `pd.to_datetime` (which raises `ValueError`
for a day out of range in the given year, so in particular for `29-Feb` of
a non-leap year), hour-sorted group means of `groupby('Hour').mean()`, 1-D
numpy broadcasting of the profile subtraction, first-minimum semantics of
`min(d, key=d.get)` over insertion order, and decimal `round(x, 2)`.
Uncaught exceptions are modelled with `Except`, caught ones with `Option`.
`mean` of an empty selection is `NaN` in pandas; the embedding returns `0`
there, and every theorem touching such a mean assumes the selection is
nonempty, where the embedding is faithful.
-/

attribute [local semireducible] Rat.mul Rat.inv Rat.add Rat.sub Rat.ofScientific

/-- Leap-year test `is_leap_year` from `process_solar_data`:
divisible by 4 and (not by 100, or by 400). -/
def is_leap_year (year : Nat) : Bool :=
  year % 4 == 0 && (year % 100 != 0 || year % 400 == 0)

/-- Number of days `datetime` accepts for month `m` of `year`
(proleptic Gregorian, as used by `pd.to_datetime`). -/
def daysInMonth (m year : Nat) : Nat :=
  if m = 2 then (if is_leap_year year then 29 else 28)
  else if m = 4 ∨ m = 6 ∨ m = 9 ∨ m = 11 then 30 else 31

/-- A first-column label containing a dash, as classified by
`isinstance(row.iloc[0], str) and '-' in row.iloc[0]`.  `dm d m` is a label
matching the `%d-%b` shape whose month abbreviation resolves to month `m`;
`malformed` is any dash-containing string that strict `strptime` rejects
outright (unrecognized month name, non-numeric day, and the like). -/
inductive DateLabel
  | dm (day : Nat) (month : Nat)
  | malformed
deriving DecidableEq, Repr

/-- Outcome of `pd.to_datetime(f"{current_date} {year}", format="%d-%b %Y")`:
`some (month, day)` on success; `none` when a `ValueError` is raised —
`current_date` still `None` (the string "None {year}" does not match the
format), a malformed label, or a day out of range for that month in that
year (notably `29-Feb` of a non-leap year). -/
def parseDate (cur : Option DateLabel) (year : Nat) : Option (Nat × Nat) :=
  match cur with
  | none => none
  | some .malformed => none
  | some (.dm d m) =>
    if 1 ≤ m ∧ m ≤ 12 ∧ 1 ≤ d ∧ d ≤ daysInMonth m year then some (m, d) else none

/-- Calendar rollover of `+ pd.to_timedelta(hour, unit='h')`: advance a
`(year, month, day)` triple by `k` days in the proleptic Gregorian
calendar. -/
def addDays : Nat → Nat × Nat × Nat → Nat × Nat × Nat
  | 0, ymd => ymd
  | k + 1, (y, m, d) =>
    if d < daysInMonth m y then addDays k (y, m, d + 1)
    else if m < 12 then addDays k (y, m + 1, 1)
    else addDays k (y + 1, 1, 1)

/-- One normalized record, a row of the `processed_data` frame:
`(Year, Month, Day, Hour, Solar Radiation)`. -/
structure Record where
  year : Nat
  month : Nat
  day : Nat
  hour : Nat
  value : ℚ
deriving DecidableEq, Repr

/-- One classified input row: a date-marker (first cell is a string with a
dash) or a value row (first cell parses as the hour, then one value per
column). -/
inductive Row
  | marker (label : DateLabel)
  | values (hour : Nat) (vals : List ℚ)
deriving DecidableEq, Repr

/-- The fixed tracked years `range(2019, 2024)`. -/
def trackedYears : List Nat := [2019, 2020, 2021, 2022, 2023]

/-- Body of the inner `for year, value in zip(range(2019, 2024), row.iloc[1:])`
loop: build the full date, zero the value on a successfully parsed Feb-29 of
a non-leap year (the branch at lines 27–28), and emit the record; a
`ValueError` from date construction yields `none` (the record is skipped). -/
def emitOne (cur : Option DateLabel) (hour : Nat) (p : Nat × ℚ) : Option Record :=
  match parseDate cur p.1 with
  | none => none
  | some (m, d) =>
    let f := addDays (hour / 24) (p.1, m, d)
    let v : ℚ := if is_leap_year p.1 = false ∧ f.2.1 = 2 ∧ f.2.2 = 29 then 0 else p.2
    some ⟨p.1, f.2.1, f.2.2, hour % 24, v⟩

/-- The row scan of `process_solar_data` with the running `current_date`
state: a marker row updates the state, a value row fans out across the
tracked years, skipping records whose date construction fails. -/
def processGo (cur : Option DateLabel) : List Row → List Record
  | [] => []
  | .marker l :: rs => processGo (some l) rs
  | .values h vs :: rs => (trackedYears.zip vs).filterMap (emitOne cur h) ++ processGo cur rs

/-- Normalization stage `process_solar_data` (file I/O stripped):
scan the classified rows starting with `current_date = None`. -/
def process_solar_data (rows : List Row) : List Record := processGo none rows

/-- Arithmetic mean, `Series.mean()` on a nonempty selection. -/
def mean (l : List ℚ) : ℚ := l.sum / (l.length : ℚ)

/-- Insert into a strictly sorted list of hours, keeping it sorted and
duplicate-free. -/
def insertSorted (x : Nat) : List Nat → List Nat
  | [] => [x]
  | y :: ys => if x < y then x :: y :: ys else if x = y then y :: ys else y :: insertSorted x ys

/-- The distinct hours of a list, ascending — the group keys produced by
`groupby('Hour')`. -/
def sortedHours (l : List Nat) : List Nat := l.foldr insertSorted []

/-- Hourly mean profile `groupby('Hour')['Solar Radiation'].mean()`:
the ascending distinct hours paired with each group's mean value. -/
def profile (l : List Record) : List (Nat × ℚ) :=
  (sortedHours (l.map (·.hour))).map
    (fun h => (h, mean ((l.filter (fun r => r.hour == h)).map (·.value))))

/-- `ndarray.max()` of a nonempty 1-D array (the empty case raises in
numpy; callers guard it). -/
def maxl : List ℚ → ℚ
  | [] => 0
  | x :: xs => xs.foldl max x

/-- `ndarray.min()` of a nonempty 1-D array (the empty case raises in
numpy; callers guard it). -/
def minl : List ℚ → ℚ
  | [] => 0
  | x :: xs => xs.foldl min x

/-- The epsilon `1e-10` guarding the range division. -/
def eps : ℚ := 1 / 10000000000

/-- The month slice `processed_data[processed_data['Month'] == month]`. -/
def monthData (recs : List Record) (m : Nat) : List Record :=
  recs.filter (fun r => r.month == m)

/-- Values of the long-term hourly profile `long_term_hourly_avg.values`. -/
def ltProfileVals (md : List Record) : List ℚ := (profile md).map (·.2)

/-- Values of one candidate year's hourly profile `year_hourly_avg.values`. -/
def candProfileVals (md : List Record) (y : Nat) : List ℚ :=
  (profile (md.filter (fun r => r.year == y))).map (·.2)

/-- The denominator `long_term.max() - long_term.min() + 1e-10`. -/
def fsRange (md : List Record) : ℚ :=
  maxl (ltProfileVals md) - minl (ltProfileVals md) + eps

/-- Elementwise subtraction of two 1-D numpy arrays under the broadcasting
rule: equal lengths subtract pointwise, a length-1 operand broadcasts, and
anything else raises (`none`). -/
def broadcastSub (a b : List ℚ) : Option (List ℚ) :=
  if a.length = b.length then some (List.zipWith (fun x y => x - y) a b)
  else if b.length = 1 then some (a.map (fun x => x - b.headD 0))
  else if a.length = 1 then some (b.map (fun y => a.headD 0 - y))
  else none

/-- One year's FS statistic as the code computes it:
`sum(abs((long_term - year_avg) / (max - min + 1e-10)))`, `none` when the
broadcast raises. -/
def fsForYear (md : List Record) (y : Nat) : Option ℚ :=
  (broadcastSub (ltProfileVals md) (candProfileVals md y)).map
    (fun ds => (ds.map (fun d => |d / fsRange md|)).sum)

/-- The uncaught exceptions `calculate_tmm` can raise: the zero-size
`.max()` reduction on a month with no records, a failed numpy broadcast for
a (month, year) pair with mismatched profile lengths, and `min` over an
empty statistics map. -/
inductive TmmError
  | emptyProfile (month : Nat)
  | broadcast (month : Nat) (year : Nat)
  | emptyStats (month : Nat)
deriving DecidableEq, Repr

/-- The `for year in years` loop filling `fs_statistics`, kept in insertion
order; the first broadcast failure aborts the run. -/
def fsYears (md : List Record) (m : Nat) : List Nat → Except TmmError (List (Nat × ℚ))
  | [] => .ok []
  | y :: ys =>
    match fsForYear md y with
    | none => .error (.broadcast m y)
    | some s =>
      match fsYears md m ys with
      | .error e => .error e
      | .ok rest => .ok ((y, s) :: rest)

/-- The `fs_statistics` dict for one month: errors with the zero-size
reduction when the month has no records (empty long-term profile), else
runs the year loop. -/
def fsStatistics (recs : List Record) (m : Nat) : Except TmmError (List (Nat × ℚ)) :=
  if ltProfileVals (monthData recs m) = [] then .error (.emptyProfile m)
  else fsYears (monthData recs m) m trackedYears

/-- First-minimum scan of `min(fs_statistics, key=fs_statistics.get)`:
a later entry replaces the current best only when strictly smaller. -/
def scanMin (p : Nat × ℚ) (l : List (Nat × ℚ)) : Nat × ℚ :=
  l.foldl (fun b q => if q.2 < b.2 then q else b) p

/-- One row of the TMM table:
`(Month, Representative Year, Average Solar Radiation)`. -/
structure Selection where
  month : Nat
  year : Nat
  avg : ℚ
deriving DecidableEq, Repr

deriving instance DecidableEq for Except

/-- Floor of a rational, as floor division of numerator by denominator. -/
def ratFloor (q : ℚ) : ℤ := Int.fdiv q.num q.den

/-- Round to the nearest integer, ties to even — the tie rule of Python's
`round`. -/
def roundHalfEven (q : ℚ) : ℤ :=
  if q - (ratFloor q : ℚ) < 1/2 then ratFloor q
  else if q - (ratFloor q : ℚ) > 1/2 then ratFloor q + 1
  else if ratFloor q % 2 = 0 then ratFloor q else ratFloor q + 1

/-- Python's `round(q, 2)`. -/
def roundTo2 (q : ℚ) : ℚ := (roundHalfEven (q * 100) : ℚ) / 100

/-- One iteration of the `for month in range(1, 13)` loop of
`calculate_tmm`: compute the FS statistics, pick the first minimal year,
and report the rounded mean of that year's records for the month. -/
def tmmForMonth (recs : List Record) (m : Nat) : Except TmmError Selection :=
  match fsStatistics recs m with
  | .error e => .error e
  | .ok [] => .error (.emptyStats m)
  | .ok (p :: ps) =>
    .ok ⟨m, (scanMin p ps).1,
      roundTo2 (mean (((monthData recs m).filter
        (fun r => r.year == (scanMin p ps).1)).map (·.value)))⟩

/-- The month loop of `calculate_tmm`, aborting at the first month that
raises. -/
def tmmMonths (recs : List Record) : List Nat → Except TmmError (List Selection)
  | [] => .ok []
  | m :: ms =>
    match tmmForMonth recs m with
    | .error e => .error e
    | .ok s =>
      match tmmMonths recs ms with
      | .error e => .error e
      | .ok ss => .ok (s :: ss)

/-- TMM stage `calculate_tmm`: one selection per month 1–12. -/
def calculate_tmm (recs : List Record) : Except TmmError (List Selection) :=
  tmmMonths recs (List.range' 1 12)

/-- TMY stage `calculate_tmy`: for each TMM row in the order supplied,
filter the processed records to that `(Month, Representative Year)` and
concatenate (`pd.concat`). -/
def calculate_tmy (tmm : List Selection) (recs : List Record) : List Record :=
  (tmm.map (fun s => recs.filter (fun r => r.month == s.month && r.year == s.year))).flatten

/-- Value of an association list at a key, defaulting to `0`. -/
def lookupD (l : List (Nat × ℚ)) (h : Nat) : ℚ :=
  match l with
  | [] => 0
  | (k, v) :: rest => if h = k then v else lookupD rest h

/-- Spec formula for the FS statistic, written the way the spec states it:
`FS(y) = Σ_h |longTermProfile[h] - candidateProfile[y][h]| / range`, the
sum ranging over the hours of the long-term profile and the range being
`max - min + 1e-10`. -/
def fsSpec (md : List Record) (y : Nat) : ℚ :=
  (((profile md).map Prod.fst).map
    (fun h => |lookupD (profile md) h -
      lookupD (profile (md.filter (fun r => r.year == y))) h|)).sum / fsRange md

/-- Shape constraint of a well-formed input: every value row carries one
value per tracked year. -/
def wellFormedRow : Row → Bool
  | .marker _ => true
  | .values _ vs => vs.length == trackedYears.length

/-- Number of value rows of the input. -/
def countValueRows : List Row → Nat
  | [] => 0
  | .marker _ :: rs => countValueRows rs
  | .values _ _ :: rs => 1 + countValueRows rs

/-- Number of `(value row, year)` attempts whose date construction fails
during the scan, i.e. the records the normalization skips. -/
def failCountGo (cur : Option DateLabel) : List Row → Nat
  | [] => 0
  | .marker l :: rs => failCountGo (some l) rs
  | .values _ vs :: rs =>
    ((trackedYears.zip vs).filter (fun p => (parseDate cur p.1).isNone)).length
      + failCountGo cur rs

/-- Whether a row is a value row. -/
def Row.isValues : Row → Bool
  | .marker _ => false
  | .values _ _ => true

/-- Input exhibiting the Feb-29 behaviour: a "29-Feb" marker followed by
one value row (hour 7) with one value per tracked year. -/
def feb29Rows : List Row := [.marker (.dm 29 2), .values 7 [10, 20, 30, 40, 50]]

/-- A data set with one record per (month, year) pair, hour 0, value 1/3. -/
def flatRecords : List Record :=
  ((List.range' 1 12).map (fun m => trackedYears.map (fun y => ⟨y, m, 1, 0, 1/3⟩))).flatten

/-- The TMM table `calculate_tmm` produces on `flatRecords`. -/
def flatSelections : List Selection :=
  (List.range' 1 12).map (fun m => ⟨m, 2019, 33/100⟩)

/-- Every month 1–12 has a record, but year 2020 has none for month 1 while
month 1's long-term profile spans two hours, so the numpy broadcast fails. -/
def cex6Records : List Record :=
  ⟨2019, 1, 1, 0, 5⟩ :: ⟨2019, 1, 1, 1, 7⟩ ::
    (List.range' 2 11).map (fun m => ⟨2019, m, 1, 0, 3⟩)

/-- TMM selections supplied out of month order. -/
def cex4Sels : List Selection := [⟨2, 2019, 0⟩, ⟨1, 2019, 0⟩]

/-- Two records in months 1 and 2. -/
def cex4Recs : List Record := [⟨2019, 1, 1, 0, 1⟩, ⟨2019, 2, 1, 0, 2⟩]

/-- The same selections in ascending month order. -/
def w4Sels : List Selection := [⟨1, 2019, 0⟩, ⟨2, 2019, 0⟩]

/-- One record per tracked year, all in month 1, hour 0, value 7. -/
def month1Recs : List Record := trackedYears.map (fun y => ⟨y, 1, 1, 0, 7⟩)

/-- The FS statistics `fsStatistics` yields on `month1Recs` for month 1. -/
def fslW : List (Nat × ℚ) := [(2019, 0), (2020, 0), (2021, 0), (2022, 0), (2023, 0)]

/-- A well-formed input containing one label ("31-Apr") whose date
construction fails for every tracked year. -/
def wfRows : List Row :=
  [.marker (.dm 31 4), .values 0 [1, 2, 3, 4, 5], .marker (.dm 1 1), .values 0 [6, 7, 8, 9, 10]]

/-- A value row occurring before any date marker. -/
def earlyRows : List Row := [.values 0 [1, 2, 3, 4, 5]]

/-- Rows following the premature value row. -/
def restRows : List Row := [.marker (.dm 1 1), .values 1 [9, 8, 7, 6, 5]]

section Helpers

lemma mem_insertSorted (x z : Nat) (l : List Nat) :
    z ∈ insertSorted x l ↔ z = x ∨ z ∈ l := by
  induction l with
  | nil => simp [insertSorted]
  | cons y ys ih =>
    by_cases h1 : x < y
    · simp [insertSorted, h1]
    · by_cases h2 : x = y
      · subst h2
        have hred : insertSorted x (x :: ys) = x :: ys := by
          simp [insertSorted, h1]
        rw [hred]
        simp only [List.mem_cons]
        tauto
      · simp only [insertSorted, if_neg h1, if_neg h2, List.mem_cons, ih]
        tauto

lemma insertSorted_ne_nil (x : Nat) (l : List Nat) : insertSorted x l ≠ [] := by
  cases l with
  | nil => simp [insertSorted]
  | cons y ys =>
    by_cases h1 : x < y <;> by_cases h2 : x = y <;> simp [insertSorted, h1, h2]

lemma insertSorted_pairwise (x : Nat) (l : List Nat) (h : l.Pairwise (· < ·)) :
    (insertSorted x l).Pairwise (· < ·) := by
  induction l with
  | nil => simp [insertSorted]
  | cons y ys ih =>
    rcases List.pairwise_cons.mp h with ⟨hy, hys⟩
    by_cases h1 : x < y
    · simp only [insertSorted, if_pos h1]
      refine List.pairwise_cons.mpr ⟨?_, h⟩
      intro z hz
      rcases List.mem_cons.mp hz with rfl | hz
      · exact h1
      · exact h1.trans (hy z hz)
    · by_cases h2 : x = y
      · simpa [insertSorted, h1, h2] using h
      · simp only [insertSorted, if_neg h1, if_neg h2]
        refine List.pairwise_cons.mpr ⟨?_, ih hys⟩
        intro z hz
        rcases (mem_insertSorted x z ys).mp hz with rfl | hz
        · omega
        · exact hy z hz

lemma sortedHours_pairwise (l : List Nat) : (sortedHours l).Pairwise (· < ·) := by
  induction l with
  | nil => simp [sortedHours]
  | cons x xs ih => exact insertSorted_pairwise x _ ih

lemma sortedHours_ne_nil (l : List Nat) (h : l ≠ []) : sortedHours l ≠ [] := by
  cases l with
  | nil => exact absurd rfl h
  | cons x xs => exact insertSorted_ne_nil x (sortedHours xs)

lemma profile_keys (l : List Record) :
    (profile l).map Prod.fst = sortedHours (l.map (·.hour)) := by
  unfold profile
  rw [List.map_map]
  exact List.map_id'' (fun x => rfl) _

lemma profile_ne_nil (l : List Record) (h : l ≠ []) : profile l ≠ [] := by
  intro hc
  have hk := profile_keys l
  rw [hc] at hk
  have : l.map (·.hour) ≠ [] := by
    cases l with
    | nil => exact absurd rfl h
    | cons r rs => simp
  exact sortedHours_ne_nil _ this hk.symm

lemma le_foldl_max (xs : List ℚ) (a : ℚ) : a ≤ xs.foldl max a := by
  induction xs generalizing a with
  | nil => simp
  | cons y ys ih => exact le_trans (le_max_left a y) (ih (max a y))

lemma foldl_min_le (xs : List ℚ) (a : ℚ) : xs.foldl min a ≤ a := by
  induction xs generalizing a with
  | nil => simp
  | cons y ys ih => exact le_trans (ih (min a y)) (min_le_left a y)

lemma minl_le_maxl (l : List ℚ) : minl l ≤ maxl l := by
  cases l with
  | nil => simp [minl, maxl]
  | cons x xs => exact le_trans (foldl_min_le xs x) (le_foldl_max xs x)

lemma eps_pos : 0 < eps := by norm_num [eps]

lemma fsRange_pos (md : List Record) : 0 < fsRange md := by
  have h1 := minl_le_maxl (ltProfileVals md)
  have h2 := eps_pos
  unfold fsRange
  linarith

lemma ite_min_le (p a : Nat × ℚ) :
    (if a.2 < p.2 then a else p).2 ≤ p.2 ∧ (if a.2 < p.2 then a else p).2 ≤ a.2 := by
  by_cases hc : a.2 < p.2
  · rw [if_pos hc]; exact ⟨le_of_lt hc, le_refl _⟩
  · rw [if_neg hc]; exact ⟨le_refl _, le_of_not_lt hc⟩

lemma scanMin_mem (p : Nat × ℚ) (l : List (Nat × ℚ)) : scanMin p l ∈ p :: l := by
  induction l generalizing p with
  | nil => simp [scanMin]
  | cons a as ih =>
    have hstep : scanMin p (a :: as) = scanMin (if a.2 < p.2 then a else p) as := by
      simp [scanMin]
    rw [hstep]
    have hm := ih (if a.2 < p.2 then a else p)
    rcases List.mem_cons.mp hm with h1 | h1
    · by_cases hc : a.2 < p.2
      · rw [h1, if_pos hc]; exact List.mem_cons_of_mem _ (List.mem_cons_self _ _)
      · rw [h1, if_neg hc]; exact List.mem_cons_self _ _
    · exact List.mem_cons_of_mem _ (List.mem_cons_of_mem _ h1)

lemma scanMin_le (p : Nat × ℚ) (l : List (Nat × ℚ)) :
    ∀ q ∈ p :: l, (scanMin p l).2 ≤ q.2 := by
  induction l generalizing p with
  | nil =>
    intro q hq
    have hqp : q = p := by simpa using hq
    subst hqp
    simp [scanMin]
  | cons a as ih =>
    intro q hq
    have hstep : scanMin p (a :: as) = scanMin (if a.2 < p.2 then a else p) as := by
      simp [scanMin]
    rw [hstep]
    have hhead : (scanMin (if a.2 < p.2 then a else p) as).2 ≤ (if a.2 < p.2 then a else p).2 :=
      ih _ _ (List.mem_cons_self _ _)
    have hboth : (scanMin (if a.2 < p.2 then a else p) as).2 ≤ p.2 ∧
        (scanMin (if a.2 < p.2 then a else p) as).2 ≤ a.2 :=
      ⟨le_trans hhead (ite_min_le p a).1, le_trans hhead (ite_min_le p a).2⟩
    rcases List.mem_cons.mp hq with h1 | h1
    · rw [h1]; exact hboth.1
    · rcases List.mem_cons.mp h1 with h2 | h2
      · rw [h2]; exact hboth.2
      · exact ih _ q (List.mem_cons_of_mem _ h2)

lemma scanMin_first (p : Nat × ℚ) (l : List (Nat × ℚ))
    (hs : (p :: l).Pairwise (fun a b => a.1 < b.1)) :
    ∀ q ∈ p :: l, q.2 = (scanMin p l).2 → (scanMin p l).1 ≤ q.1 := by
  induction l generalizing p with
  | nil =>
    intro q hq _
    have hqp : q = p := by simpa using hq
    subst hqp
    simp [scanMin]
  | cons a as ih =>
    intro r hr heq
    have hstep : scanMin p (a :: as) = scanMin (if a.2 < p.2 then a else p) as := by
      simp [scanMin]
    rw [hstep] at heq ⊢
    rcases List.pairwise_cons.mp hs with ⟨hpall, hrest⟩
    rcases List.pairwise_cons.mp hrest with ⟨haall, has⟩
    have hs2 : ((if a.2 < p.2 then a else p) :: as).Pairwise (fun x y => x.1 < y.1) := by
      refine List.pairwise_cons.mpr ⟨?_, has⟩
      intro z hz
      by_cases hc : a.2 < p.2
      · rw [if_pos hc]; exact haall z hz
      · rw [if_neg hc]; exact hpall z (List.mem_cons_of_mem _ hz)
    have hheadmem : (if a.2 < p.2 then a else p) ∈ (if a.2 < p.2 then a else p) :: as :=
      List.mem_cons_self _ _
    rcases List.mem_cons.mp hr with h1 | h1
    · by_cases hc : a.2 < p.2
      · exfalso
        have hle : (scanMin (if a.2 < p.2 then a else p) as).2 ≤ a.2 :=
          le_trans (scanMin_le (if a.2 < p.2 then a else p) as _ hheadmem)
            (ite_min_le p a).2
        rw [← heq, h1] at hle
        exact absurd (lt_of_lt_of_le hc hle) (lt_irrefl _)
      · refine ih _ hs2 r ?_ heq
        rw [h1, if_neg hc]
        exact List.mem_cons_self _ _
    · rcases List.mem_cons.mp h1 with h2 | h2
      · by_cases hc : a.2 < p.2
        · refine ih _ hs2 r ?_ heq
          rw [h2, if_pos hc]
          exact List.mem_cons_self _ _
        · have hle : (scanMin (if a.2 < p.2 then a else p) as).2 ≤ p.2 :=
            le_trans (scanMin_le (if a.2 < p.2 then a else p) as _ hheadmem)
              (ite_min_le p a).1
          have h2' : p.2 ≤ r.2 := by rw [h2]; exact le_of_not_lt hc
          have h3 : p.2 = (scanMin (if a.2 < p.2 then a else p) as).2 :=
            le_antisymm (heq ▸ h2') hle
          have h4 : (scanMin (if a.2 < p.2 then a else p) as).1 ≤ p.1 := by
            refine ih _ hs2 p ?_ h3
            rw [if_neg hc]
            exact List.mem_cons_self _ _
          have h5 : p.1 < r.1 := by
            rw [h2]
            exact hpall a (List.mem_cons_self _ _)
          exact le_trans h4 (le_of_lt h5)
      · exact ih _ hs2 r (List.mem_cons_of_mem _ h2) heq

lemma fsYears_ok_keys (md : List Record) (m : Nat) (ys : List Nat) (l : List (Nat × ℚ))
    (h : fsYears md m ys = .ok l) : l.map Prod.fst = ys := by
  induction ys generalizing l with
  | nil =>
    rw [fsYears] at h
    injection h with h2
    rw [← h2]
    rfl
  | cons y ys ih =>
    rw [fsYears] at h
    cases hf : fsForYear md y with
    | none => rw [hf] at h; simp at h
    | some s =>
      rw [hf] at h
      cases hr : fsYears md m ys with
      | error e => rw [hr] at h; simp at h
      | ok rest =>
        rw [hr] at h
        simp only [] at h
        injection h with h2
        rw [← h2, List.map_cons, ih rest hr]

lemma fsYears_ok_of (md : List Record) (m : Nat) (ys : List Nat)
    (h : ∀ y ∈ ys, (fsForYear md y).isSome) :
    ∃ l, fsYears md m ys = .ok l := by
  induction ys with
  | nil => exact ⟨[], rfl⟩
  | cons y ys ih =>
    have hy := h y (List.mem_cons_self _ _)
    cases hf : fsForYear md y with
    | none => rw [hf] at hy; simp at hy
    | some s =>
      obtain ⟨l, hl⟩ := ih (fun z hz => h z (List.mem_cons_of_mem _ hz))
      exact ⟨(y, s) :: l, by rw [fsYears, hf, hl]⟩

lemma tmmMonths_ok_mem (recs : List Record) (ms : List Nat) (sels : List Selection)
    (h : tmmMonths recs ms = .ok sels) :
    ∀ sel ∈ sels, ∃ m ∈ ms, tmmForMonth recs m = .ok sel := by
  induction ms generalizing sels with
  | nil =>
    rw [tmmMonths] at h
    injection h with h2
    rw [← h2]
    intro sel hsel
    simp at hsel
  | cons m ms ih =>
    rw [tmmMonths] at h
    cases hf : tmmForMonth recs m with
    | error e => rw [hf] at h; simp at h
    | ok s =>
      rw [hf] at h
      cases hr : tmmMonths recs ms with
      | error e => rw [hr] at h; simp at h
      | ok ss =>
        rw [hr] at h
        simp only [] at h
        injection h with h2
        rw [← h2]
        intro sel hsel
        rcases List.mem_cons.mp hsel with h1 | h1
        · exact ⟨m, List.mem_cons_self _ _, by rw [h1]; exact hf⟩
        · obtain ⟨m2, hm2, hok⟩ := ih ss hr sel h1
          exact ⟨m2, List.mem_cons_of_mem _ hm2, hok⟩

lemma tmmMonths_ok_of (recs : List Record) (ms : List Nat)
    (h : ∀ m ∈ ms, ∃ s, tmmForMonth recs m = .ok s ∧ s.month = m ∧ s.year ∈ trackedYears) :
    ∃ sels, tmmMonths recs ms = .ok sels ∧ sels.map Selection.month = ms ∧
      ∀ s ∈ sels, s.year ∈ trackedYears := by
  induction ms with
  | nil => exact ⟨[], rfl, rfl, by simp⟩
  | cons m ms ih =>
    obtain ⟨s, hs, hsm, hsy⟩ := h m (List.mem_cons_self _ _)
    obtain ⟨sels, hsels, hmap, hyall⟩ := ih (fun z hz => h z (List.mem_cons_of_mem _ hz))
    refine ⟨s :: sels, ?_, ?_, ?_⟩
    · rw [tmmMonths, hs, hsels]
    · rw [List.map_cons, hmap, hsm]
    · intro t ht
      rcases List.mem_cons.mp ht with h1 | h1
      · rw [h1]; exact hsy
      · exact hyall t h1

lemma tmmMonths_error_of (recs : List Record) (ms : List Nat) (m : Nat) (e : TmmError)
    (hm : m ∈ ms) (he : tmmForMonth recs m = .error e) :
    ∃ e2, tmmMonths recs ms = .error e2 := by
  induction ms with
  | nil => simp at hm
  | cons m2 ms ih =>
    cases hf : tmmForMonth recs m2 with
    | error e2 => exact ⟨e2, by rw [tmmMonths, hf]⟩
    | ok s =>
      have hm2 : m ∈ ms := by
        rcases List.mem_cons.mp hm with h1 | h1
        · exfalso
          rw [h1] at he
          rw [he] at hf
          exact Except.noConfusion hf
        · exact h1
      obtain ⟨e2, he2⟩ := ih hm2
      exact ⟨e2, by rw [tmmMonths, hf, he2]⟩

lemma sum_map_div (l : List ℚ) (r : ℚ) :
    (l.map (fun x => x / r)).sum = l.sum / r := by
  induction l with
  | nil => simp
  | cons x xs ih => simp [ih, add_div]

lemma lookupD_head (k : Nat) (v : ℚ) (rest : List (Nat × ℚ)) :
    lookupD ((k, v) :: rest) k = v := by simp [lookupD]

lemma lookupD_ne (k h : Nat) (v : ℚ) (rest : List (Nat × ℚ)) (hne : h ≠ k) :
    lookupD ((k, v) :: rest) h = lookupD rest h := by simp [lookupD, hne]

lemma zipWith_sub_lookup (P : List (Nat × ℚ)) : ∀ Q : List (Nat × ℚ),
    P.map Prod.fst = Q.map Prod.fst → (P.map Prod.fst).Pairwise (· < ·) →
    List.zipWith (fun x y => x - y) (P.map Prod.snd) (Q.map Prod.snd)
      = (P.map Prod.fst).map (fun h => lookupD P h - lookupD Q h) := by
  induction P with
  | nil =>
    intro Q hk _
    cases Q with
    | nil => rfl
    | cons q qs => simp at hk
  | cons p ps ih =>
    intro Q hk hnd
    cases Q with
    | nil => simp at hk
    | cons q qs =>
      obtain ⟨p1, p2⟩ := p
      obtain ⟨q1, q2⟩ := q
      simp only [List.map_cons, List.cons.injEq] at hk
      obtain ⟨hkey, htail⟩ := hk
      subst hkey
      have hnd2 : (p1 :: ps.map Prod.fst).Pairwise (· < ·) := by simpa using hnd
      rcases List.pairwise_cons.mp hnd2 with ⟨hall, hnd'⟩
      simp only [List.map_cons, List.zipWith_cons_cons]
      congr 1
      · rw [lookupD_head, lookupD_head]
      · rw [ih qs htail hnd']
        apply List.map_congr_left
        intro h hh
        have hne : h ≠ p1 := fun hc => lt_irrefl p1 (hc ▸ hall h hh)
        rw [lookupD_ne _ _ _ _ hne, lookupD_ne _ _ _ _ hne]

lemma length_filterMap_add {α β : Type} (f : α → Option β) (l : List α) :
    (l.filterMap f).length + (l.filter (fun x => (f x).isNone)).length = l.length := by
  induction l with
  | nil => rfl
  | cons x xs ih =>
    cases hf : f x with
    | none =>
      rw [List.filterMap_cons, hf, List.filter_cons]
      simp only [hf, Option.isNone_none, if_pos]
      simp only [List.length_cons]
      omega
    | some b =>
      simp [List.filterMap_cons, hf, List.filter_cons]
      omega

lemma emitOne_isNone (cur : Option DateLabel) (hour : Nat) (p : Nat × ℚ) :
    (emitOne cur hour p).isNone = (parseDate cur p.1).isNone := by
  unfold emitOne
  cases parseDate cur p.1 with
  | none => rfl
  | some md =>
    obtain ⟨m, d⟩ := md
    rfl

lemma processGo_length (rows : List Row) : ∀ cur, (∀ r ∈ rows, wellFormedRow r = true) →
    (processGo cur rows).length + failCountGo cur rows
      = trackedYears.length * countValueRows rows := by
  induction rows with
  | nil => intro cur _; rfl
  | cons row rs ih =>
    intro cur h
    cases row with
    | marker l =>
      rw [processGo, failCountGo, countValueRows]
      exact ih (some l) (fun r hr => h r (List.mem_cons_of_mem _ hr))
    | values hh vs =>
      have hwf : vs.length = trackedYears.length := by
        simpa [wellFormedRow] using h _ (List.mem_cons_self _ _)
      rw [processGo, failCountGo, countValueRows, List.length_append]
      have hcongr : (trackedYears.zip vs).filter (fun p => (parseDate cur p.1).isNone)
          = (trackedYears.zip vs).filter (fun p => (emitOne cur hh p).isNone) :=
        List.filter_congr (fun p _ => (emitOne_isNone cur hh p).symm)
      rw [hcongr]
      have hcount := length_filterMap_add (emitOne cur hh) (trackedYears.zip vs)
      have hzlen : (trackedYears.zip vs).length = trackedYears.length := by
        rw [List.length_zip, hwf, Nat.min_self]
      have hL : trackedYears.length = 5 := rfl
      have ihr := ih cur (fun r hr => h r (List.mem_cons_of_mem _ hr))
      rw [hL] at hzlen ihr ⊢
      omega

lemma filterMap_emitOne_none (hh : Nat) (l : List (Nat × ℚ)) :
    l.filterMap (emitOne none hh) = [] := by
  induction l with
  | nil => rfl
  | cons p ps ih =>
    rw [List.filterMap_cons]
    have : emitOne none hh p = none := rfl
    rw [this, ih]

lemma sum_map_abs_div (keys : List Nat) (f : Nat → ℚ) (r : ℚ) (hr : 0 < r) :
    (keys.map (fun h => |f h / r|)).sum = (keys.map (fun h => |f h|)).sum / r := by
  induction keys with
  | nil => simp
  | cons k ks ih =>
    rw [List.map_cons, List.sum_cons, List.map_cons, List.sum_cons, ih, abs_div,
      abs_of_pos hr, add_div]

lemma fs_formula_aux (md : List Record) (y : Nat)
    (h : (profile (md.filter (fun r => r.year == y))).map Prod.fst
      = (profile md).map Prod.fst) :
    fsForYear md y = some (fsSpec md y) := by
  have hlen : (ltProfileVals md).length = (candProfileVals md y).length := by
    unfold ltProfileVals candProfileVals
    have hc := congrArg List.length h
    simp only [List.length_map] at hc ⊢
    rw [hc]
  have hfinal : ((List.zipWith (fun x y => x - y) (ltProfileVals md)
      (candProfileVals md y)).map (fun d => |d / fsRange md|)).sum = fsSpec md y := by
    unfold ltProfileVals candProfileVals
    rw [zipWith_sub_lookup (profile md) (profile (md.filter (fun r => r.year == y))) h.symm
      (by rw [profile_keys]; exact sortedHours_pairwise _)]
    rw [List.map_map]
    exact sum_map_abs_div ((profile md).map Prod.fst)
      (fun hh => lookupD (profile md) hh -
        lookupD (profile (md.filter (fun r => r.year == y))) hh)
      (fsRange md) (fsRange_pos md)
  unfold fsForYear broadcastSub
  rw [if_pos hlen]
  exact congrArg some hfinal

lemma pairwise_le_of_all_eq (l : List Nat) (c : Nat) (h : ∀ x ∈ l, x = c) :
    l.Pairwise (· ≤ ·) := by
  induction l with
  | nil => simp
  | cons x xs ih =>
    refine List.pairwise_cons.mpr ⟨?_, ih (fun z hz => h z (List.mem_cons_of_mem _ hz))⟩
    intro z hz
    rw [h x (List.mem_cons_self _ _), h z (List.mem_cons_of_mem _ hz)]

lemma mem_filter_month (recs : List Record) (m y : Nat) :
    ∀ x ∈ (recs.filter (fun r => r.month == m && r.year == y)).map Record.month, x = m := by
  intro x hx
  rw [List.mem_map] at hx
  obtain ⟨r, hr, rfl⟩ := hx
  have hp := List.of_mem_filter hr
  simp only [Bool.and_eq_true, beq_iff_eq] at hp
  exact hp.1

lemma mem_tmy_month (ss : List Selection) (recs : List Record) :
    ∀ x ∈ (calculate_tmy ss recs).map Record.month, ∃ s ∈ ss, x = s.month := by
  intro x hx
  rw [List.mem_map] at hx
  obtain ⟨r, hr, rfl⟩ := hx
  unfold calculate_tmy at hr
  rw [List.mem_flatten] at hr
  obtain ⟨l, hl, hrl⟩ := hr
  rw [List.mem_map] at hl
  obtain ⟨s, hs, rfl⟩ := hl
  have hp := List.of_mem_filter hrl
  simp only [Bool.and_eq_true, beq_iff_eq] at hp
  exact ⟨s, hs, hp.1⟩

end Helpers

/-- C1: On the failing input — a "29-Feb" date-marker row followed by one
value row at hour 7 with values 10/20/30/40/50 — normalization emits NO
record at all for the non-leap tracked years 2019, 2021, 2022 and 2023:
strict `%d-%b %Y` parsing raises `ValueError` on "29-Feb" of a non-leap
year before the zeroing branch (lines 27–28, dead code) can run, so the
`except` skips the record.  Only the leap year 2020 produces a record, with
its original value 20 retained.  The claim expects four additional records
with Value = 0.0. -/
theorem C1_feb29_skipped_not_zeroed :
    process_solar_data feb29Rows = [⟨2020, 2, 29, 7, 20⟩] ∧
      (process_solar_data feb29Rows).filter (fun r => r.year != 2020) = [] := by
  exact ⟨by decide, by decide⟩

/-- C2: For a month whose long-term hourly profile and a year's candidate
hourly profile are defined over the same set of hours, the FS statistic the
code computes (positional numpy subtraction, absolute value after the range
division, then summed) equals the spec's formula
`Σ_h |longTermProfile[h] − candidateProfile[y][h]| / (max − min + 1e-10)`. -/
theorem C2_fs_statistic_formula (recs : List Record) (m y : Nat)
    (h : (profile ((monthData recs m).filter (fun r => r.year == y))).map Prod.fst
      = (profile (monthData recs m)).map Prod.fst) :
    fsForYear (monthData recs m) y = some (fsSpec (monthData recs m) y) :=
  fs_formula_aux (monthData recs m) y h

/-- C2 witness: the formula holds on a concrete month of data. -/
theorem C2_witness :
    ((profile ((monthData month1Recs 1).filter (fun r => r.year == 2019))).map Prod.fst
        = (profile (monthData month1Recs 1)).map Prod.fst) ∧
      fsForYear (monthData month1Recs 1) 2019 = some (fsSpec (monthData month1Recs 1) 2019) :=
  ⟨by decide, C2_fs_statistic_formula month1Recs 1 2019 (by decide)⟩

/-- C3: When the FS statistics for a month are computed and a selection is
made, the selected representative year attains the minimal FS statistic,
and among exact ties the smallest year is selected (the `min` scan keeps
the earliest entry, and the statistics are inserted in ascending year
order).  The embedding is a pure function, so the choice is identical on
every run. -/
theorem C3_argmin_smallest_year (recs : List Record) (m : Nat)
    (fsl : List (Nat × ℚ)) (sel : Selection)
    (h1 : fsStatistics recs m = .ok fsl) (h2 : tmmForMonth recs m = .ok sel) :
    ∃ s : ℚ, (sel.year, s) ∈ fsl ∧ (∀ p ∈ fsl, s ≤ p.2) ∧
      ∀ p ∈ fsl, p.2 = s → sel.year ≤ p.1 := by
  have hkeys : fsl.map Prod.fst = trackedYears := by
    unfold fsStatistics at h1
    split at h1
    · simp at h1
    · exact fsYears_ok_keys _ _ _ _ h1
  unfold tmmForMonth at h2
  rw [h1] at h2
  cases fsl with
  | nil => simp at h2
  | cons p ps =>
    simp only [] at h2
    injection h2 with h3
    have hyear : sel.year = (scanMin p ps).1 := by rw [← h3]
    have hpair : ((p :: ps).map Prod.fst).Pairwise (· < ·) := by
      rw [hkeys]; decide
    have hpair2 : (p :: ps).Pairwise (fun a b => a.1 < b.1) := List.pairwise_map.mp hpair
    refine ⟨(scanMin p ps).2, ?_, ?_, ?_⟩
    · rw [hyear]
      exact scanMin_mem p ps
    · exact scanMin_le p ps
    · intro q hq hqe
      rw [hyear]
      exact scanMin_first p ps hpair2 q hq hqe

/-- C3 witness: on concrete data with an exact five-way tie (all FS
statistics are 0), the smallest year 2019 is selected. -/
theorem C3_witness :
    fsStatistics month1Recs 1 = .ok fslW ∧
      tmmForMonth month1Recs 1 = .ok ⟨1, 2019, 7⟩ ∧
      ∃ s : ℚ, ((⟨1, 2019, 7⟩ : Selection).year, s) ∈ fslW ∧ (∀ p ∈ fslW, s ≤ p.2) ∧
        ∀ p ∈ fslW, p.2 = s → (⟨1, 2019, 7⟩ : Selection).year ≤ p.1 :=
  ⟨by decide, by decide,
    C3_argmin_smallest_year month1Recs 1 fslW ⟨1, 2019, 7⟩ (by decide) (by decide)⟩

/-- C4 counterexample: when the TMM selections are supplied out of month
order (month 2 before month 1), the assembled series is NOT in ascending
month order — `calculate_tmy` concatenates in the supplied order and never
re-sorts, so the claim's "in whatever order the selections are supplied"
fails. -/
theorem C4_cex_unsorted_supply :
    (calculate_tmy cex4Sels cex4Recs).map Record.month = [2, 1] ∧
      ¬ ((calculate_tmy cex4Sels cex4Recs).map Record.month).Pairwise (· ≤ ·) :=
  ⟨by decide, by decide⟩

/-- C4 amended: the assembled TMY series is the concatenation of the
per-selection filtered blocks in the order the selections are supplied;
when the selections' months are supplied in ascending order (as
`calculate_tmm` produces them), the output's months are in ascending
order. -/
theorem C4_sorted_when_supplied_sorted (sels : List Selection) (recs : List Record)
    (h : (sels.map Selection.month).Pairwise (· ≤ ·)) :
    ((calculate_tmy sels recs).map Record.month).Pairwise (· ≤ ·) := by
  induction sels with
  | nil => simp [calculate_tmy]
  | cons s ss ih =>
    rw [List.map_cons] at h
    rcases List.pairwise_cons.mp h with ⟨hall, hrest⟩
    have hstep : calculate_tmy (s :: ss) recs =
        recs.filter (fun r => r.month == s.month && r.year == s.year)
          ++ calculate_tmy ss recs := by
      unfold calculate_tmy
      rw [List.map_cons, List.flatten_cons]
    rw [hstep, List.map_append, List.pairwise_append]
    refine ⟨pairwise_le_of_all_eq _ s.month (mem_filter_month recs s.month s.year),
      ih hrest, ?_⟩
    intro x hx z hz
    obtain ⟨s2, hs2, rfl⟩ := mem_tmy_month ss recs z hz
    rw [mem_filter_month recs s.month s.year x hx]
    exact hall s2.month (List.mem_map_of_mem _ hs2)

/-- C4 witness: sorted supply yields sorted output on concrete data. -/
theorem C4_witness :
    ((w4Sels.map Selection.month).Pairwise (· ≤ ·)) ∧
      ((calculate_tmy w4Sels cex4Recs).map Record.month).Pairwise (· ≤ ·) :=
  ⟨by decide, C4_sorted_when_supplied_sorted w4Sels cex4Recs (by decide)⟩

/-- C5 counterexample: on `flatRecords` (every record's value is 1/3) the
TMM table reports month 1's average as 0.33 — the mean rounded to two
decimals by `round(x, 2)` — whereas the arithmetic mean of the selected
year's records is 1/3 ≠ 0.33.  The claim as stated (report equals the mean
exactly) is false. -/
theorem C5_cex_rounded_mean :
    calculate_tmm flatRecords = .ok flatSelections ∧
      flatSelections.head? = some ⟨1, 2019, 33/100⟩ ∧
      mean ((flatRecords.filter (fun r => r.month == 1 && r.year == 2019)).map (·.value))
        = 1/3 ∧
      (33/100 : ℚ) ≠ 1/3 :=
  ⟨by decide, by decide, by decide, by decide⟩

/-- C5 amended: the AverageValue reported in a month's TMM selection equals
the arithmetic mean of Value over the selected representative year's
records for that month, rounded to 2 decimal places (Python `round`). -/
theorem C5_avg_is_rounded_mean (recs : List Record) (sels : List Selection) (sel : Selection)
    (h1 : calculate_tmm recs = .ok sels) (h2 : sel ∈ sels)
    (h3 : recs.filter (fun r => r.month == sel.month && r.year == sel.year) ≠ []) :
    sel.avg = roundTo2
      (((recs.filter (fun r => r.month == sel.month && r.year == sel.year)).map (·.value)).sum
        / (((recs.filter (fun r => r.month == sel.month && r.year == sel.year)).map
            (·.value)).length : ℚ)) := by
  obtain ⟨m, hm, hok⟩ := tmmMonths_ok_mem recs _ sels h1 sel h2
  unfold tmmForMonth at hok
  cases hfs : fsStatistics recs m with
  | error e => rw [hfs] at hok; simp at hok
  | ok fsl =>
    rw [hfs] at hok
    cases fsl with
    | nil => simp at hok
    | cons p ps =>
      simp only [] at hok
      injection hok with h4
      have hmonth : sel.month = m := by rw [← h4]
      have hyear : sel.year = (scanMin p ps).1 := by rw [← h4]
      have havg : sel.avg = roundTo2 (mean (((monthData recs m).filter
          (fun r => r.year == (scanMin p ps).1)).map (·.value))) := by rw [← h4]
      have hff : (monthData recs m).filter (fun r => r.year == (scanMin p ps).1)
          = recs.filter (fun r => r.month == sel.month && r.year == sel.year) := by
        unfold monthData
        rw [List.filter_filter]
        apply List.filter_congr
        intro r _
        rw [hmonth, hyear]
        exact Bool.and_comm _ _
      rw [havg, hff]
      rfl

/-- C5 witness: the amended statement holds on concrete data, with the
rounded value 0.33 actually differing from the mean 1/3. -/
theorem C5_witness :
    calculate_tmm flatRecords = .ok flatSelections ∧
      (⟨1, 2019, 33/100⟩ : Selection) ∈ flatSelections ∧
      flatRecords.filter (fun r => r.month == (1 : Nat) && r.year == (2019 : Nat)) ≠ [] ∧
      (⟨1, 2019, 33/100⟩ : Selection).avg = roundTo2
        (((flatRecords.filter (fun r =>
            r.month == (⟨1, 2019, 33/100⟩ : Selection).month &&
              r.year == (⟨1, 2019, 33/100⟩ : Selection).year)).map (·.value)).sum
          / (((flatRecords.filter (fun r =>
              r.month == (⟨1, 2019, 33/100⟩ : Selection).month &&
                r.year == (⟨1, 2019, 33/100⟩ : Selection).year)).map (·.value)).length : ℚ)) :=
  ⟨by decide, by decide, by decide,
    C5_avg_is_rounded_mean flatRecords flatSelections ⟨1, 2019, 33/100⟩
      (by decide) (by decide) (by decide)⟩

/-- C6 counterexample: every month 1–12 has at least one normalized record,
yet `calculate_tmm` aborts with an uncaught broadcast error (month 1's
long-term profile has two hours while year 2020 has no month-1 records), so
no 12-entry TMM table is produced and the claim as stated fails. -/
theorem C6_cex_broadcast_failure :
    (∀ m ∈ List.range' 1 12, monthData cex6Records m ≠ []) ∧
      calculate_tmm cex6Records = .error (.broadcast 1 2020) :=
  ⟨by decide, by decide⟩

/-- C6 amended: when every month 1–12 has at least one normalized record
AND, for every month and tracked year, the year's hourly profile is defined
over the same set of hours as the month's long-term profile (so every numpy
broadcast is well-shaped), the TMM output has exactly 12 entries, one per
calendar month in ascending order 1–12, and every RepresentativeYear is one
of the tracked years. -/
theorem C6_twelve_aligned_months (recs : List Record)
    (h : ∀ m ∈ List.range' 1 12, monthData recs m ≠ [] ∧
      ∀ y ∈ trackedYears,
        (profile ((monthData recs m).filter (fun r => r.year == y))).map Prod.fst
          = (profile (monthData recs m)).map Prod.fst) :
    ∃ sels, calculate_tmm recs = .ok sels ∧ sels.length = 12 ∧
      sels.map Selection.month = List.range' 1 12 ∧
      ∀ s ∈ sels, s.year ∈ trackedYears := by
  have hmonth : ∀ m ∈ List.range' 1 12, ∃ s, tmmForMonth recs m = .ok s ∧
      s.month = m ∧ s.year ∈ trackedYears := by
    intro m hm
    obtain ⟨hne, hkeys⟩ := h m hm
    have hlt : ltProfileVals (monthData recs m) ≠ [] := by
      unfold ltProfileVals
      intro hc
      exact profile_ne_nil _ hne (List.map_eq_nil_iff.mp hc)
    have hfsy : ∀ y ∈ trackedYears, (fsForYear (monthData recs m) y).isSome := by
      intro y hy
      have hlen : (ltProfileVals (monthData recs m)).length
          = (candProfileVals (monthData recs m) y).length := by
        unfold ltProfileVals candProfileVals
        have hc := congrArg List.length (hkeys y hy)
        simp only [List.length_map] at hc ⊢
        rw [hc]
      unfold fsForYear broadcastSub
      rw [if_pos hlen]
      rfl
    obtain ⟨fsl, hfsl⟩ := fsYears_ok_of (monthData recs m) m trackedYears hfsy
    have hkeysl : fsl.map Prod.fst = trackedYears := fsYears_ok_keys _ _ _ _ hfsl
    have hfs : fsStatistics recs m = .ok fsl := by
      unfold fsStatistics
      rw [if_neg hlt]
      exact hfsl
    cases fsl with
    | nil => simp [trackedYears] at hkeysl
    | cons p ps =>
      refine ⟨⟨m, (scanMin p ps).1, roundTo2 (mean (((monthData recs m).filter
        (fun r => r.year == (scanMin p ps).1)).map (·.value)))⟩, ?_, rfl, ?_⟩
      · unfold tmmForMonth
        rw [hfs]
      · have hmem : (scanMin p ps).1 ∈ (p :: ps).map Prod.fst :=
          List.mem_map_of_mem _ (scanMin_mem p ps)
        rw [hkeysl] at hmem
        exact hmem
  obtain ⟨sels, h1, h2, h3⟩ := tmmMonths_ok_of recs _ hmonth
  refine ⟨sels, h1, ?_, h2, h3⟩
  have hc := congrArg List.length h2
  simpa using hc

/-- C6 witness: on fully aligned data (one record per month and year at
hour 0) the amended statement applies. -/
theorem C6_witness :
    ∃ sels, calculate_tmm flatRecords = .ok sels ∧ sels.length = 12 ∧
      sels.map Selection.month = List.range' 1 12 ∧
      ∀ s ∈ sels, s.year ∈ trackedYears :=
  C6_twelve_aligned_months flatRecords (by decide)

/-- C7: For a well-formed input (each value row carries one value per
tracked year), the number of normalized records equals the number of value
rows times the number of tracked years, minus exactly the number of
per-(value row, year) date-construction failures; each failure skips only
its own record and processing continues. -/
theorem C7_record_count (rows : List Row) (h : ∀ r ∈ rows, wellFormedRow r = true) :
    (process_solar_data rows).length =
      trackedYears.length * countValueRows rows - failCountGo none rows := by
  have hc := processGo_length rows none h
  unfold process_solar_data
  omega

/-- C7 witness: a well-formed input with a "31-Apr" label loses exactly
five records (one per tracked year) and keeps the rest. -/
theorem C7_witness :
    (∀ r ∈ wfRows, wellFormedRow r = true) ∧
      (process_solar_data wfRows).length =
        trackedYears.length * countValueRows wfRows - failCountGo none wfRows :=
  ⟨by decide, C7_record_count wfRows (by decide)⟩

/-- C8: If some month 1–12 has no normalized records, the TMM computation
fails: that month's iteration raises (the zero-size `.max()` reduction,
modelled as the `emptyProfile` error naming the month), and the whole run
aborts with an error instead of completing with a degenerate (NaN)
selection. -/
theorem C8_empty_month_aborts (recs : List Record) (m : Nat)
    (h1 : m ∈ List.range' 1 12) (h2 : monthData recs m = []) :
    tmmForMonth recs m = .error (.emptyProfile m) ∧
      ∃ e, calculate_tmm recs = .error e := by
  have herr : tmmForMonth recs m = .error (.emptyProfile m) := by
    have hfs : fsStatistics recs m = .error (.emptyProfile m) := by
      unfold fsStatistics
      rw [h2]
      rfl
    unfold tmmForMonth
    rw [hfs]
  exact ⟨herr, tmmMonths_error_of recs _ m _ h1 herr⟩

/-- C8 witness: data confined to month 1 makes month 2 empty and the run
abort. -/
theorem C8_witness :
    ((2 ∈ List.range' 1 12) ∧ monthData month1Recs 2 = []) ∧
      tmmForMonth month1Recs 2 = .error (.emptyProfile 2) ∧
      ∃ e, calculate_tmm month1Recs = .error e :=
  ⟨⟨by decide, by decide⟩, C8_empty_month_aborts month1Recs 2 (by decide) (by decide)⟩

/-- C9: Value rows occurring before any date-marker row (current label
still unset) emit no record for any tracked year — `to_datetime` fails on
the "None …" string, the `ValueError` is caught per record — and the scan
continues: processing the whole input equals processing just the rows after
that prefix.  The embedding is total, so no abort occurs. -/
theorem C9_value_rows_before_marker (p rest : List Row)
    (h : ∀ r ∈ p, r.isValues = true) :
    process_solar_data (p ++ rest) = process_solar_data rest := by
  unfold process_solar_data
  induction p with
  | nil => rfl
  | cons row rs ih =>
    cases row with
    | marker l =>
      exact absurd (h _ (List.mem_cons_self _ _)) (by simp [Row.isValues])
    | values hh vs =>
      rw [List.cons_append, processGo, filterMap_emitOne_none, List.nil_append]
      exact ih (fun r hr => h r (List.mem_cons_of_mem _ hr))

/-- C9 witness: one premature value row contributes nothing and processing
continues with the remaining rows. -/
theorem C9_witness :
    (∀ r ∈ earlyRows, r.isValues = true) ∧
      process_solar_data (earlyRows ++ restRows) = process_solar_data restRows :=
  ⟨by decide, C9_value_rows_before_marker earlyRows restRows (by decide)⟩

/-- C10: Every record of the assembled TMY series is, field for field, a
member of the normalized input set (the assembly copies records, never
rewrites them — and being a pure function it leaves the input unchanged),
and the series length is the sum over the selections of the number of
matching `(Month, Year)` records. -/
theorem C10_assembly_frame (sels : List Selection) (recs : List Record) :
    (∀ r ∈ calculate_tmy sels recs, r ∈ recs) ∧
      (calculate_tmy sels recs).length =
        (sels.map (fun s =>
          (recs.filter (fun r => r.month == s.month && r.year == s.year)).length)).sum := by
  constructor
  · intro r hr
    unfold calculate_tmy at hr
    rw [List.mem_flatten] at hr
    obtain ⟨l, hl, hrl⟩ := hr
    rw [List.mem_map] at hl
    obtain ⟨s, _, rfl⟩ := hl
    exact List.mem_of_mem_filter hrl
  · unfold calculate_tmy
    rw [List.length_flatten, List.map_map]
    rfl

/-- C10 witness: the frame property applied at concrete data. -/
theorem C10_witness :
    (∀ r ∈ calculate_tmy cex4Sels cex4Recs, r ∈ cex4Recs) ∧
      (calculate_tmy cex4Sels cex4Recs).length =
        (cex4Sels.map (fun s =>
          (cex4Recs.filter (fun r => r.month == s.month && r.year == s.year)).length)).sum :=
  C10_assembly_frame cex4Sels cex4Recs
